import Mathlib

/-!
Verification of the AWS icon catalog loader
(`src/search-aws-icons.tsx` of the `copy-aws-icon` Raycast extension).

The TypeScript source is shallowly embedded below.  JavaScript strings are
modelled as Lean `String`s; the JS string operations used by the source
(`split` with a one-character separator, `join`, `includes`, `trim`,
`startsWith`, `slice`, `length`) are given structurally recursive
implementations over the character list `String.data`, so that every
definition evaluates inside the kernel.  The filesystem effects
(`fs.access`, `fs.readFile`, `fs.stat`) are modelled by an explicit
environment `FSModel`; an operation that throws is modelled by `none`,
and the `try`/`catch` of the source by the corresponding early returns.
-/

/-- JS `str.split(sep)` for a one-character separator, over char lists.
`split` always returns at least one (possibly empty) piece. -/
def splitOnChar (sep : Char) : List Char → List (List Char)
  | [] => [[]]
  | c :: rest =>
    if c == sep then [] :: splitOnChar sep rest
    else
      match splitOnChar sep rest with
      | [] => [[c]]
      | g :: gs => (c :: g) :: gs

/-- JS `parts.join(sep)` for a one-character separator, over char lists. -/
def joinWith (sep : Char) : List (List Char) → List Char
  | [] => []
  | [x] => x
  | x :: y :: ys => x ++ sep :: joinWith sep (y :: ys)

/-- Whether `pre` occurs at the head of `l`. -/
def headMatches : List Char → List Char → Bool
  | [], _ => true
  | _ :: _, [] => false
  | a :: as, b :: bs => a == b && headMatches as bs

/-- Whether `sub` occurs contiguously somewhere in `l`
(JS `str.includes(sub)`). -/
def hasSublist (sub : List Char) : List Char → Bool
  | [] => sub.isEmpty
  | c :: rest => headMatches sub (c :: rest) || hasSublist sub rest

/-- ASCII whitespace, the fragment of JS `trim`'s whitespace class that can
occur in a manifest line. -/
def isWSp (c : Char) : Bool :=
  c == ' ' || c == '\t' || c == '\n' || c == '\r'

/-- JS `str.trim()` restricted to ASCII whitespace. -/
def trimList (l : List Char) : List Char :=
  ((l.dropWhile isWSp).reverse.dropWhile isWSp).reverse

/-- String wrapper for `splitOnChar` (JS `str.split(sep)`). -/
def sSplit (sep : Char) (s : String) : List String :=
  (splitOnChar sep s.data).map String.mk

/-- String wrapper for `joinWith` (JS `parts.join(sep)`). -/
def sJoin (sep : Char) (l : List String) : String :=
  String.mk (joinWith sep (l.map String.data))

/-- JS `str.includes(sub)`. -/
def sIncludes (s sub : String) : Bool :=
  hasSublist sub.data s.data

/-- JS `str.trim()`. -/
def sTrim (s : String) : String :=
  String.mk (trimList s.data)

/-- JS `str.startsWith(".")`: the manifest marker test of line 36. -/
def startsWithDot (s : String) : Bool :=
  match s.data with
  | '.' :: _ => true
  | _ => false

/-- The icon classification, the TS union type
`"Architecture" | "Resource" | "Category" | "Architecture Group"`. -/
inductive IconType where
  | architecture
  | resource
  | categoryType
  | architectureGroup
deriving DecidableEq, Repr

/-- The `AWSIcon` interface of the source: one logical icon record. -/
structure AWSIcon where
  name : String
  category : String
  type : IconType
  formats : List String
  path : String
deriving DecidableEq, Repr

/-- `getTypeFromCategory` (source lines 97-107): classification by
case-sensitive substring containment, first match wins. -/
def getTypeFromCategory (category : String) : IconType :=
  if sIncludes category "Arch" then IconType.architecture
  else if sIncludes category "Res" then IconType.resource
  else if sIncludes category "Cat" then IconType.categoryType
  else IconType.architectureGroup

/-- Node `path.join(a, b)`, up to the path normalisation of `.` segments,
which no property below depends on. -/
def pathJoin (a b : String) : String :=
  a ++ "/" ++ b

/-- The versioned asset directory name (source line 14). -/
def ASSET_DIR : String :=
  "Asset-Package_06072024.b5d9f0b1179c4a995a3f1e42042defabb0ba0fd2"

/-- `extractIconData` (source lines 66-95).  Returns `(icon?, format)`:
`icon? = none` models the `{ icon: null, format: "" }` results. -/
def extractIconData (item itemPath : String) : Option AWSIcon × String :=
  let parts := sSplit '/' item
  if parts.length < 3 then
    (none, "")
  else
    let category := parts.getD 1 ""
    let filename := parts.getLastD ""
    let nameParts := sSplit '.' filename
    let format := nameParts.getLastD ""
    let name := sJoin '.' nameParts.dropLast
    if format = "" ∨ name = "" then
      (none, "")
    else
      (some { name := name, category := category,
              type := getTypeFromCategory category,
              formats := [], path := itemPath }, format)

/-- The `icons.find` callback of line 45: JS
`i.name === icon.name && i.category === icon.category && i.type === icon.type`. -/
def keyMatches (i icon : AWSIcon) : Bool :=
  i.name == icon.name && i.category == icon.category
    && decide (i.type = icon.type)

/-- The deduplication step of the loader loop (source lines 45-55):
`icons.find` locates the first record with the same
(name, category, type); if found, `format` is pushed onto its `formats`
unless already present (lines 47-50); otherwise the fresh icon (whose
`formats` is `[]` coming out of `extractIconData`) gets `format` pushed
and is appended (lines 52-53). -/
def insertIcon : List AWSIcon → AWSIcon → String → List AWSIcon
  | [], icon, format => [{ icon with formats := icon.formats ++ [format] }]
  | i :: rest, icon, format =>
    if keyMatches i icon then
      if i.formats.contains format then i :: rest
      else { i with formats := i.formats ++ [format] } :: rest
    else
      i :: insertIcon rest icon format

/-- The filesystem environment seen by `loadIconsData`:
`accessOk` models whether `fs.access(baseDir)` resolves, `findTxt` the
result of `fs.readFile(baseDir + "/find.txt")` (`none` = throws), and
`stat p` the result of `fs.stat p` (`none` = throws, `some b` = resolves
with `isFile() = b`). -/
structure FSModel where
  accessOk : Bool
  findTxt : Option String
  stat : String → Option Bool

/-- The per-item loop of `loadIconsData` (source lines 35-58), with the
accumulated `icons` list made explicit.  A throwing `fs.stat` propagates
to the `catch` of lines 59-61, which returns the icons accumulated so
far: hence the `none` branch returns `acc` and drops the rest. -/
def processItems (fs : FSModel) (baseDir : String) :
    List String → List AWSIcon → List AWSIcon
  | [], acc => acc
  | item :: rest, acc =>
    if !startsWithDot item then
      processItems fs baseDir rest acc
    else
      match fs.stat (pathJoin baseDir item) with
      | none => acc
      | some isFile =>
        if isFile then
          match extractIconData item (pathJoin baseDir item) with
          | (some icon, format) =>
            processItems fs baseDir rest (insertIcon acc icon format)
          | (none, _) => processItems fs baseDir rest acc
        else
          processItems fs baseDir rest acc

/-- The base directory `path.join(__dirname, "assets", ASSET_DIR)`
(source line 18). -/
def baseDirOf (dirname : String) : String :=
  pathJoin (pathJoin dirname "assets") ASSET_DIR

/-- Manifest lines: split the file on newlines and drop blank lines
(source line 30). -/
def manifestItems (content : String) : List String :=
  (sSplit '\n' content).filter (fun s => sTrim s != "")

/-- `loadIconsData` (source lines 16-64).  A failing `fs.access` or
`fs.readFile` lands in the `catch` before any icon is accumulated, so
those branches return the empty catalog. -/
def loadIconsData (fs : FSModel) (dirname : String) : List AWSIcon :=
  let baseDir := baseDirOf dirname
  if !fs.accessOk then []
  else
    match fs.findTxt with
    | none => []
    | some content => processItems fs baseDir (manifestItems content) []

/-- JS `str.toUpperCase()` (ASCII case mapping). -/
def sToUpper (s : String) : String :=
  String.mk (s.data.map Char.toUpper)

/-- Toast styles of the host notification API. -/
inductive ToastStyle where
  | success
  | failure
deriving DecidableEq, Repr

/-- One `showToast` call: style, title, message. -/
structure ToastMsg where
  style : ToastStyle
  title : String
  message : String
deriving DecidableEq, Repr

/-- The observable outcome of one `copyIconToClipboard` call: the file
references placed on the clipboard and the toasts shown, in order. -/
structure CopyOutcome where
  clip : List String
  toasts : List ToastMsg
deriving DecidableEq, Repr

/-- `copyIconToClipboard` (source lines 129-150).  `accessOk p` models
whether `fs.access p` resolves; `clipOk` whether `Clipboard.copy`
resolves.  Either rejection lands in the `catch`, which shows the single
failure toast; the success path copies `icon.path` and shows the single
success toast.  The catalog is neither read nor written. -/
def copyIconToClipboard (accessOk : String → Bool) (clipOk : Bool)
    (icon : AWSIcon) (format : String) : CopyOutcome :=
  let failToast : ToastMsg :=
    { style := ToastStyle.failure,
      title := "Failed to copy " ++ sToUpper format ++ " icon to clipboard",
      message := "The icon file might not exist or be accessible." }
  if accessOk icon.path then
    if clipOk then
      { clip := [icon.path],
        toasts := [{ style := ToastStyle.success,
                     title := sToUpper format ++ " icon copied to clipboard",
                     message := "Paste it wherever you need." }] }
    else
      { clip := [], toasts := [failToast] }
  else
    { clip := [], toasts := [failToast] }

/-- `truncate` (source lines 152-157): JS
`str.length <= maxLength ? str : str.slice(0, maxLength) + "..."`.
The grid cell title at line 177 is `truncate(icon.name, 20)`. -/
def truncate (str : String) (maxLength : Nat) : String :=
  if str.data.length ≤ maxLength then str
  else String.mk (str.data.take maxLength) ++ "..."

/-- The deduplication identity of a record: the (name, category,
classification) triple compared by `icons.find` at line 45. -/
def identityOf (i : AWSIcon) : String × String × IconType :=
  (i.name, i.category, i.type)

/-- Everything of a record except its `formats`: identity plus
`sourcePath`.  Used to state which fields the loader may still change
after a record is created. -/
def skeleton (i : AWSIcon) : (String × String × IconType) × String :=
  (identityOf i, i.path)

/-- The valid extraction event an item contributes when no `fs.stat`
throws: `some (icon, format)` exactly when the item passes the marker,
`isFile` and `extractIconData` filters. -/
def eventOf (fs : FSModel) (baseDir : String) (item : String) :
    Option (AWSIcon × String) :=
  if !startsWithDot item then none
  else
    match fs.stat (pathJoin baseDir item) with
    | some true =>
      match extractIconData item (pathJoin baseDir item) with
      | (some icon, format) => some (icon, format)
      | (none, _) => none
    | _ => none

/-- All valid extraction events of an item list, in manifest order. -/
def validEvents (fs : FSModel) (baseDir : String) (items : List String) :
    List (AWSIcon × String) :=
  items.filterMap (eventOf fs baseDir)

/-- Format accumulation of one event on an existing record
(lines 47-50): push unless already present. -/
def pushFormat (fmts : List String) (format : String) : List String :=
  if fmts.contains format then fmts else fmts ++ [format]

/-- A filesystem in which the base asset directory is inaccessible. -/
def fsNoDir : FSModel :=
  { accessOk := false
    findTxt := none
    stat := fun _ => none }

/-- A filesystem whose manifest file is present but empty. -/
def fsEmptyManifest : FSModel :=
  { accessOk := true
    findTxt := some ""
    stat := fun _ => none }

/-- The on-disk location of the sample file `./Res_B/ok.png` under the
base directory obtained from `__dirname = "d"`. -/
def okPngPath : String :=
  pathJoin (baseDirOf "d") "./Res_B/ok.png"

/-- The on-disk location of the sample file `./Res_B/ok.svg`. -/
def okSvgPath : String :=
  pathJoin (baseDirOf "d") "./Res_B/ok.svg"

/-- A filesystem whose manifest names two existing files around an entry
whose `fs.stat` throws. -/
def fsAbort : FSModel :=
  { accessOk := true
    findTxt := some "./Res_B/ok.png\n./bad/x.png\n./Res_B/ok.svg"
    stat := fun p => if p = okPngPath ∨ p = okSvgPath then some true
                     else none }

/-- A filesystem whose manifest starts with a two-segment entry whose
`fs.stat` throws, followed by a well-formed existing file. -/
def fsShortAbort : FSModel :=
  { accessOk := true
    findTxt := some "./x\n./Res_B/ok.png"
    stat := fun p => if p = okPngPath then some true else none }

/-- The same filesystem as `fsShortAbort` but with the two-segment entry
removed from the manifest. -/
def fsShortOk : FSModel :=
  { accessOk := true
    findTxt := some "./Res_B/ok.png"
    stat := fun p => if p = okPngPath then some true else none }

/-- A filesystem whose manifest lists one logical icon in two formats,
with every path statting as an existing file. -/
def fsSingle : FSModel :=
  { accessOk := true
    findTxt := some "./Res_A/X.png\n./Res_A/X.svg"
    stat := fun _ => some true }

/-- A sample catalogued record. -/
def recA : AWSIcon :=
  { name := "A", category := "Res_A", type := IconType.resource,
    formats := ["png"], path := "/a" }

/-- A freshly extracted record with a different identity than `recA`. -/
def recB : AWSIcon :=
  { name := "B", category := "Res_B", type := IconType.resource,
    formats := [], path := "/b" }

theorem keyMatches_iff (i j : AWSIcon) :
    keyMatches i j = true ↔ identityOf i = identityOf j := by
  simp [keyMatches, identityOf, Prod.ext_iff, and_assoc]

theorem identityOf_update (i : AWSIcon) (l : List String) :
    identityOf { i with formats := l } = identityOf i := rfl

theorem skeleton_update (i : AWSIcon) (l : List String) :
    skeleton { i with formats := l } = skeleton i := rfl

theorem insertIcon_not_found (icons : List AWSIcon) (icon : AWSIcon)
    (format : String) (h : ∀ i ∈ icons, keyMatches i icon = false) :
    insertIcon icons icon format
      = icons ++ [{ icon with formats := icon.formats ++ [format] }] := by
  induction icons with
  | nil => rfl
  | cons i rest ih =>
    have hi : keyMatches i icon = false := h i (by simp)
    simp only [insertIcon, hi, Bool.false_eq_true, if_false, List.cons_append,
      List.cons.injEq, true_and]
    exact ih (fun j hj => h j (by simp [hj]))

theorem insertIcon_cons_match (i : AWSIcon) (rest : List AWSIcon)
    (icon : AWSIcon) (format : String) (h : keyMatches i icon = true) :
    insertIcon (i :: rest) icon format
      = { i with formats := pushFormat i.formats format } :: rest := by
  simp only [insertIcon, h, if_true, pushFormat]
  by_cases hm : format ∈ i.formats
  · simp [hm]
  · simp [hm]

theorem insertIcon_found (icons : List AWSIcon) (icon : AWSIcon)
    (format : String) (h : ∃ i ∈ icons, keyMatches i icon = true) :
    (insertIcon icons icon format).map skeleton = icons.map skeleton := by
  induction icons with
  | nil => simp at h
  | cons i rest ih =>
    by_cases hi : keyMatches i icon = true
    · rw [insertIcon_cons_match i rest icon format hi]
      simp [skeleton_update]
    · have hrest : ∃ j ∈ rest, keyMatches j icon = true := by
        rcases h with ⟨j, hj, hkey⟩
        rcases List.mem_cons.mp hj with rfl | hj2
        · exact absurd hkey hi
        · exact ⟨j, hj2, hkey⟩
      have hi2 : keyMatches i icon = false := by
        simpa using hi
      simp only [insertIcon, hi2, Bool.false_eq_true, if_false, List.map_cons,
        List.cons.injEq, true_and]
      exact ih hrest

theorem insertIcon_skeleton (icons : List AWSIcon) (icon : AWSIcon)
    (format : String) :
    (insertIcon icons icon format).map skeleton = icons.map skeleton
    ∨ (insertIcon icons icon format).map skeleton
        = icons.map skeleton ++ [skeleton icon] := by
  by_cases h : ∃ i ∈ icons, keyMatches i icon = true
  · exact Or.inl (insertIcon_found icons icon format h)
  · refine Or.inr ?_
    have hall : ∀ i ∈ icons, keyMatches i icon = false := by
      intro i hi
      by_contra hne
      exact h ⟨i, hi, by simpa using hne⟩
    rw [insertIcon_not_found icons icon format hall]
    simp [skeleton_update]

theorem insertIcon_nodup (icons : List AWSIcon) (icon : AWSIcon)
    (format : String) (h : (icons.map identityOf).Nodup) :
    ((insertIcon icons icon format).map identityOf).Nodup := by
  have hcompose : ∀ l : List AWSIcon,
      l.map identityOf = (l.map skeleton).map Prod.fst := by
    intro l
    rw [List.map_map]
    rfl
  by_cases hex : ∃ i ∈ icons, keyMatches i icon = true
  · have h2 : (insertIcon icons icon format).map identityOf
        = icons.map identityOf := by
      rw [hcompose, hcompose, insertIcon_found icons icon format hex]
    rw [h2]
    exact h
  · have hall : ∀ i ∈ icons, keyMatches i icon = false := by
      intro i hi
      by_contra hne
      exact hex ⟨i, hi, by simpa using hne⟩
    rw [insertIcon_not_found icons icon format hall, List.map_append]
    refine List.Nodup.append h (by simp) ?_
    intro a ha hb
    simp only [List.map_cons, List.map_nil, List.mem_singleton,
      identityOf_update] at hb
    subst hb
    rcases List.mem_map.mp ha with ⟨i, hi, hid⟩
    have : keyMatches i icon = true := (keyMatches_iff i icon).mpr hid
    rw [hall i hi] at this
    exact Bool.false_ne_true this

theorem processItems_nodup (fs : FSModel) (baseDir : String)
    (items : List String) :
    ∀ acc, (acc.map identityOf).Nodup →
      ((processItems fs baseDir items acc).map identityOf).Nodup := by
  induction items with
  | nil =>
    intro acc h
    simpa [processItems] using h
  | cons item rest ih =>
    intro acc h
    by_cases hd : startsWithDot item = true
    · simp only [processItems, hd, Bool.not_true, Bool.false_eq_true, if_false]
      cases hstat : fs.stat (pathJoin baseDir item) with
      | none => exact h
      | some b =>
        cases b with
        | true =>
          rcases hx : extractIconData item (pathJoin baseDir item) with ⟨oi, fmt⟩
          cases oi with
          | some icon =>
            simp only [hx]
            exact ih _ (insertIcon_nodup acc icon fmt h)
          | none =>
            simp only [hx]
            exact ih acc h
        | false => exact ih acc h
    · have hd2 : startsWithDot item = false := by simpa using hd
      simp only [processItems, hd2, Bool.not_false, if_true]
      exact ih acc h

theorem processItems_skeleton (fs : FSModel) (baseDir : String)
    (items : List String) :
    ∀ acc, ∃ ext, (processItems fs baseDir items acc).map skeleton
      = acc.map skeleton ++ ext := by
  induction items with
  | nil =>
    intro acc
    exact ⟨[], by simp [processItems]⟩
  | cons item rest ih =>
    intro acc
    by_cases hd : startsWithDot item = true
    · simp only [processItems, hd, Bool.not_true, Bool.false_eq_true, if_false]
      cases hstat : fs.stat (pathJoin baseDir item) with
      | none => exact ⟨[], by simp⟩
      | some b =>
        cases b with
        | true =>
          rcases hx : extractIconData item (pathJoin baseDir item) with ⟨oi, fmt⟩
          cases oi with
          | some icon =>
            simp only [hx]
            rcases ih (insertIcon acc icon fmt) with ⟨ext, hext⟩
            rcases insertIcon_skeleton acc icon fmt with hins | hins
            · exact ⟨ext, by simp [hext, hins]⟩
            · exact ⟨[skeleton icon] ++ ext, by simp [hext, hins]⟩
          | none =>
            simp only [hx]
            exact ih acc
        | false => exact ih acc
    · have hd2 : startsWithDot item = false := by simpa using hd
      simp only [processItems, hd2, Bool.not_false, if_true]
      exact ih acc

theorem processItems_eq_foldl (fs : FSModel) (baseDir : String)
    (items : List String)
    (hstat : ∀ item ∈ items, startsWithDot item = true →
        (fs.stat (pathJoin baseDir item)).isSome = true) :
    ∀ acc, processItems fs baseDir items acc
      = (validEvents fs baseDir items).foldl
          (fun acc e => insertIcon acc e.1 e.2) acc := by
  induction items with
  | nil =>
    intro acc
    rfl
  | cons item rest ih =>
    intro acc
    have hrest : ∀ j ∈ rest, startsWithDot j = true →
        (fs.stat (pathJoin baseDir j)).isSome = true :=
      fun j hj => hstat j (by simp [hj])
    by_cases hd : startsWithDot item = true
    · rcases Option.isSome_iff_exists.mp (hstat item (by simp) hd) with ⟨b, hb⟩
      cases b with
      | true =>
        rcases hx : extractIconData item (pathJoin baseDir item) with ⟨oi, fmt⟩
        cases oi with
        | some icon =>
          have hev : eventOf fs baseDir item = some (icon, fmt) := by
            simp only [eventOf, hd, Bool.not_true, Bool.false_eq_true,
              if_false, hb, hx]
          simp only [processItems, hd, Bool.not_true, Bool.false_eq_true,
            if_false, hb, hx, validEvents, List.filterMap_cons, hev,
            List.foldl_cons]
          exact ih hrest (insertIcon acc icon fmt)
        | none =>
          have hev : eventOf fs baseDir item = none := by
            simp only [eventOf, hd, Bool.not_true, Bool.false_eq_true,
              if_false, hb, hx]
          simp only [processItems, hd, Bool.not_true, Bool.false_eq_true,
            if_false, hb, hx, validEvents, List.filterMap_cons, hev]
          exact ih hrest acc
      | false =>
        have hev : eventOf fs baseDir item = none := by
          simp only [eventOf, hd, Bool.not_true, Bool.false_eq_true,
            if_false, hb]
        simp only [processItems, hd, Bool.not_true, Bool.false_eq_true,
          if_false, hb, validEvents, List.filterMap_cons, hev]
        exact ih hrest acc
    · have hd2 : startsWithDot item = false := by simpa using hd
      have hev : eventOf fs baseDir item = none := by
        simp only [eventOf, hd2, Bool.not_false, if_true]
      simp only [processItems, hd2, Bool.not_false, if_true, validEvents,
        List.filterMap_cons, hev]
      exact ih hrest acc

theorem mem_foldl_pushFormat (fmts : List String) :
    ∀ (init : List String) (a : String),
      a ∈ fmts.foldl pushFormat init ↔ a ∈ init ∨ a ∈ fmts := by
  induction fmts with
  | nil => simp
  | cons f rest ih =>
    intro init a
    simp only [List.foldl_cons, ih, pushFormat]
    by_cases hc : f ∈ init
    · have : init.contains f = true := by simpa using hc
      simp only [this, if_true, List.mem_cons]
      constructor
      · rintro (ha | ha)
        · exact Or.inl ha
        · exact Or.inr (Or.inr ha)
      · rintro (ha | rfl | ha)
        · exact Or.inl ha
        · exact Or.inl hc
        · exact Or.inr ha
    · have : init.contains f = false := by simpa using hc
      simp only [this, Bool.false_eq_true, if_false, List.mem_append,
        List.mem_singleton, List.mem_cons]
      tauto

theorem nodup_foldl_pushFormat (fmts : List String) :
    ∀ init : List String, init.Nodup → (fmts.foldl pushFormat init).Nodup := by
  induction fmts with
  | nil =>
    intro init h
    simpa using h
  | cons f rest ih =>
    intro init h
    simp only [List.foldl_cons, pushFormat]
    by_cases hc : f ∈ init
    · have : init.contains f = true := by simpa using hc
      simp only [this, if_true]
      exact ih init h
    · have : init.contains f = false := by simpa using hc
      simp only [this, Bool.false_eq_true, if_false]
      refine ih _ (List.Nodup.append h (by simp) ?_)
      intro a ha hb
      simp only [List.mem_singleton] at hb
      subst hb
      exact hc ha

theorem foldl_insert_single (events : List (AWSIcon × String)) :
    ∀ r : AWSIcon, (∀ e ∈ events, identityOf e.1 = identityOf r) →
      events.foldl (fun acc e => insertIcon acc e.1 e.2) [r]
        = [{ r with formats :=
              (events.map Prod.snd).foldl pushFormat r.formats }] := by
  induction events with
  | nil =>
    intro r _
    rfl
  | cons e rest ih =>
    intro r h
    have hkey : keyMatches r e.1 = true :=
      (keyMatches_iff r e.1).mpr (h e (by simp)).symm
    simp only [List.foldl_cons, List.map_cons]
    rw [insertIcon_cons_match r [] e.1 e.2 hkey]
    exact ih { r with formats := pushFormat r.formats e.2 }
      (fun x hx => (h x (by simp [hx])).trans rfl)

theorem extractIconData_formats (item p : String) (icon : AWSIcon)
    (f : String) (h : extractIconData item p = (some icon, f)) :
    icon.formats = [] := by
  simp only [extractIconData] at h
  split at h
  · simp at h
  · split at h
    · simp at h
    · rw [Prod.mk.injEq, Option.some.injEq] at h
      rw [← h.1]

theorem extractIconData_path (item p : String) (icon : AWSIcon)
    (f : String) (h : extractIconData item p = (some icon, f)) :
    icon.path = p := by
  simp only [extractIconData] at h
  split at h
  · simp at h
  · split at h
    · simp at h
    · rw [Prod.mk.injEq, Option.some.injEq] at h
      rw [← h.1]

theorem eventOf_formats (fs : FSModel) (baseDir item : String)
    (e : AWSIcon × String) (h : eventOf fs baseDir item = some e) :
    e.1.formats = [] := by
  simp only [eventOf] at h
  split at h
  · exact absurd h (by simp)
  · split at h
    · split at h
      · rw [Option.some.injEq] at h
        subst h
        exact extractIconData_formats _ _ _ _ (by assumption)
      · exact absurd h (by simp)
    · exact absurd h (by simp)

theorem loadIconsData_eq_processItems (fs : FSModel) (dirname content : String)
    (hA : fs.accessOk = true) (hF : fs.findTxt = some content) :
    loadIconsData fs dirname
      = processItems fs (baseDirOf dirname) (manifestItems content) [] := by
  simp only [loadIconsData, hA, hF, Bool.not_true, Bool.false_eq_true, if_false]

example : sSplit '/' "./Res_Compute/Amazon-EC2.png"
    = [".", "Res_Compute", "Amazon-EC2.png"] := by decide

example : extractIconData "./Res_Compute/Amazon-EC2.png" "p"
    = (some { name := "Amazon-EC2", category := "Res_Compute",
              type := IconType.resource, formats := [], path := "p" },
       "png") := by decide

example : getTypeFromCategory "Arch-Group-1" = IconType.architecture := by
  decide

example : sToUpper "png" = "PNG" := by decide

example : truncate "abcdefghijklmnopqrstu" 20 = "abcdefghijklmnopqrst..." := by
  decide

example :
    (copyIconToClipboard (fun _ => false) true
      { name := "n", category := "c", type := IconType.resource,
        formats := ["png"], path := "/p" } "png").toasts.length = 1 := by
  decide

/-- Claim C2: classification is computed by case-sensitive substring
containment in the fixed order Arch, Res, Cat, with Architecture Group as
the default; the first matching rule wins, so category "Arch-Group-1"
classifies as Architecture. -/
theorem claim_C2_classification (category : String) :
    (sIncludes category "Arch" = true →
        getTypeFromCategory category = IconType.architecture)
    ∧ (sIncludes category "Arch" = false → sIncludes category "Res" = true →
        getTypeFromCategory category = IconType.resource)
    ∧ (sIncludes category "Arch" = false → sIncludes category "Res" = false →
        sIncludes category "Cat" = true →
        getTypeFromCategory category = IconType.categoryType)
    ∧ (sIncludes category "Arch" = false → sIncludes category "Res" = false →
        sIncludes category "Cat" = false →
        getTypeFromCategory category = IconType.architectureGroup)
    ∧ getTypeFromCategory "Arch-Group-1" = IconType.architecture := by
  refine ⟨?_, ?_, ?_, ?_, by decide⟩ <;> intros <;>
    simp_all [getTypeFromCategory]

theorem claim_C2_classification_witness :
    sIncludes "Arch-Group-1" "Arch" = true
    ∧ getTypeFromCategory "Arch-Group-1" = IconType.architecture :=
  ⟨by decide, (claim_C2_classification "Arch-Group-1").1 (by decide)⟩

/-- Claim C3: for an entry with at least 3 segments, the filename is the
last segment; its last dot-delimited part is the format and the rest
rejoined with "." is the name; an empty name or format discards the entry
(the loop then continues with the remaining items); filename
"Amazon-EC2.png" under category "Res_Compute" yields name "Amazon-EC2",
format "png", classification Resource. -/
theorem claim_C3_extraction :
    (∀ item itemPath : String,
      3 ≤ (sSplit '/' item).length →
        (¬((sSplit '.' ((sSplit '/' item).getLastD "")).getLastD "" = ""
            ∨ sJoin '.'
                ((sSplit '.' ((sSplit '/' item).getLastD "")).dropLast)
              = "") →
          extractIconData item itemPath
            = (some { name := sJoin '.'
                        ((sSplit '.' ((sSplit '/' item).getLastD "")).dropLast),
                      category := (sSplit '/' item).getD 1 "",
                      type := getTypeFromCategory ((sSplit '/' item).getD 1 ""),
                      formats := [], path := itemPath },
               (sSplit '.' ((sSplit '/' item).getLastD "")).getLastD ""))
        ∧ (((sSplit '.' ((sSplit '/' item).getLastD "")).getLastD "" = ""
            ∨ sJoin '.'
                ((sSplit '.' ((sSplit '/' item).getLastD "")).dropLast)
              = "") →
          extractIconData item itemPath = (none, "")))
    ∧ (∀ (fs : FSModel) (baseDir item : String) (rest : List String)
          (acc : List AWSIcon),
        fs.stat (pathJoin baseDir item) = some true →
        extractIconData item (pathJoin baseDir item) = (none, "") →
        processItems fs baseDir (item :: rest) acc
          = processItems fs baseDir rest acc)
    ∧ extractIconData "./Res_Compute/Amazon-EC2.png" "/abs/Amazon-EC2.png"
        = (some { name := "Amazon-EC2", category := "Res_Compute",
                  type := IconType.resource, formats := [],
                  path := "/abs/Amazon-EC2.png" }, "png") := by
  refine ⟨?_, ?_, by decide⟩
  · intro item itemPath h3
    have hlt : ¬ (sSplit '/' item).length < 3 := by omega
    constructor
    · intro hne
      simp only [extractIconData, hlt, if_false]
      rw [if_neg hne]
    · intro he
      simp only [extractIconData, hlt, if_false]
      rw [if_pos he]
  · intro fs baseDir item rest acc hstat hx
    by_cases hd : startsWithDot item = true
    · simp only [processItems, hd, Bool.not_true, Bool.false_eq_true,
        if_false, hstat, hx]
      split <;> rfl
    · have hd2 : startsWithDot item = false := by simpa using hd
      simp only [processItems, hd2, Bool.not_false, if_true]

theorem claim_C3_extraction_witness :
    extractIconData "./Res_Compute/Amazon-EC2.png" "/abs/Amazon-EC2.png"
      = (some { name := "Amazon-EC2", category := "Res_Compute",
                type := IconType.resource, formats := [],
                path := "/abs/Amazon-EC2.png" }, "png") :=
  (claim_C3_extraction.1 "./Res_Compute/Amazon-EC2.png"
      "/abs/Amazon-EC2.png" (by decide)).1 (by decide)

/-- Claim C4: a failing access of the base directory, a failing manifest
read, or an empty manifest all yield the empty catalog; the loader is a
total function into catalogs, so no error is raised to the caller. -/
theorem claim_C4_load_errors (fs : FSModel) (dirname : String) :
    (fs.accessOk = false → loadIconsData fs dirname = [])
    ∧ (fs.findTxt = none → loadIconsData fs dirname = [])
    ∧ (fs.findTxt = some "" → loadIconsData fs dirname = []) := by
  refine ⟨?_, ?_, ?_⟩
  · intro h
    simp [loadIconsData, h]
  · intro h
    cases hA : fs.accessOk
    · simp [loadIconsData, hA]
    · simp [loadIconsData, hA, h]
  · intro h
    cases hA : fs.accessOk
    · simp [loadIconsData, hA]
    · have hm : manifestItems "" = [] := by decide
      simp [loadIconsData, hA, h, hm, processItems]

theorem claim_C4_load_errors_witness :
    loadIconsData fsNoDir "dir" = []
    ∧ loadIconsData fsEmptyManifest "dir" = [] :=
  ⟨(claim_C4_load_errors fsNoDir "dir").1 rfl,
   (claim_C4_load_errors fsEmptyManifest "dir").2.2 rfl⟩

/-- Claim C1: the catalog never contains two records with the same
(name, category, classification) identity; and for a manifest whose
valid file entries all share one identity, the loader returns exactly
one record, whose formats list is duplicate-free and has as many
elements as there are distinct formats among those entries. -/
theorem claim_C1_dedup :
    (∀ (fs : FSModel) (dirname : String),
        ((loadIconsData fs dirname).map identityOf).Nodup)
    ∧ (∀ (fs : FSModel) (dirname content : String)
          (k : String × String × IconType),
        fs.accessOk = true →
        fs.findTxt = some content →
        (∀ item ∈ manifestItems content, startsWithDot item = true →
            (fs.stat (pathJoin (baseDirOf dirname) item)).isSome = true) →
        validEvents fs (baseDirOf dirname) (manifestItems content) ≠ [] →
        (∀ e ∈ validEvents fs (baseDirOf dirname) (manifestItems content),
            identityOf e.1 = k) →
        (loadIconsData fs dirname).length = 1
        ∧ ∀ r ∈ loadIconsData fs dirname,
            r.formats.Nodup
            ∧ r.formats.length
                = ((validEvents fs (baseDirOf dirname)
                      (manifestItems content)).map Prod.snd).toFinset.card) := by
  constructor
  · intro fs dirname
    cases hA : fs.accessOk with
    | false => simp [loadIconsData, hA]
    | true =>
      cases hF : fs.findTxt with
      | none => simp [loadIconsData, hA, hF]
      | some content =>
        rw [loadIconsData_eq_processItems fs dirname content hA hF]
        exact processItems_nodup fs _ _ [] (by simp)
  · intro fs dirname content k hA hF hstat hne hk
    rw [loadIconsData_eq_processItems fs dirname content hA hF,
      processItems_eq_foldl fs (baseDirOf dirname) (manifestItems content)
        hstat []]
    rcases hcons : validEvents fs (baseDirOf dirname) (manifestItems content)
      with _ | ⟨e, rest⟩
    · exact absurd hcons hne
    · have hmemE : e ∈ validEvents fs (baseDirOf dirname)
          (manifestItems content) := by
        rw [hcons]
        exact List.mem_cons_self e rest
      have hef : e.1.formats = [] := by
        rcases List.mem_filterMap.mp hmemE with ⟨item, _, heq⟩
        exact eventOf_formats fs (baseDirOf dirname) item e heq
      have hid : ∀ x ∈ e :: rest, identityOf x.1
          = identityOf ({ e.1 with formats := [e.2] } : AWSIcon) := by
        intro x hx
        have h1 : identityOf x.1 = k := hk x (by rw [hcons]; exact hx)
        have h2 : identityOf e.1 = k := hk e hmemE
        have h3 : identityOf ({ e.1 with formats := [e.2] } : AWSIcon)
            = identityOf e.1 := rfl
        rw [h1, h3, h2]
      have hstep : insertIcon [] e.1 e.2 = [{ e.1 with formats := [e.2] }] := by
        simp only [insertIcon, hef, List.nil_append]
      have hsingle := foldl_insert_single rest { e.1 with formats := [e.2] }
        (fun x hx => hid x (by simp [hx]))
      simp only [List.foldl_cons, hstep, hsingle]
      have hbase : (rest.map Prod.snd).foldl pushFormat [e.2]
          = ((e :: rest).map Prod.snd).foldl pushFormat [] := by
        simp [pushFormat]
      constructor
      · rfl
      · intro r hr
        simp only [List.mem_singleton] at hr
        subst hr
        have hnd : (((e :: rest).map Prod.snd).foldl pushFormat
            ([] : List String)).Nodup :=
          nodup_foldl_pushFormat _ [] (by simp)
        have hfin : (((e :: rest).map Prod.snd).foldl pushFormat
              ([] : List String)).toFinset
            = ((e :: rest).map Prod.snd).toFinset := by
          ext a
          simp [List.mem_toFinset, mem_foldl_pushFormat, pushFormat]
        constructor
        · simpa [hbase] using hnd
        · show ((rest.map Prod.snd).foldl pushFormat [e.2]).length = _
          rw [hbase, ← List.toFinset_card_of_nodup hnd, hfin]

theorem claim_C1_dedup_witness :
    (loadIconsData fsSingle "d").length = 1 :=
  (claim_C1_dedup.2 fsSingle "d" "./Res_A/X.png\n./Res_A/X.svg"
      ("X", "Res_A", IconType.resource) rfl rfl (by decide) (by decide)
      (by decide)).1

/-- Claim C5 counterexample: the claim says every entry with fewer than
3 segments is skipped without aborting the load; but a marker entry
such as "./x" is statted before its segment count is ever examined, and
a throwing stat aborts the remaining entries.  With manifest
"./x\n./Res_B/ok.png" and a stat that throws on "./x", the catalog is
empty, while deleting "./x" from the manifest yields the ok.png record:
the two-segment entry did abort the load. -/
theorem claim_C5_counterexample_short_entry :
    (sSplit '/' "./x").length < 3
    ∧ startsWithDot "./x" = true
    ∧ fsShortAbort.stat (pathJoin (baseDirOf "d") "./x") = none
    ∧ loadIconsData fsShortAbort "d" = []
    ∧ loadIconsData fsShortOk "d"
        = [{ name := "ok", category := "Res_B", type := IconType.resource,
             formats := ["png"], path := okPngPath }] :=
  ⟨by decide, by decide, by decide, by decide, by decide⟩

/-- Claim C5 amended: for every manifest entry whose path splits into
fewer than 3 segments, no record is created (`extractIconData` rejects
it) and the loader, a total function, lets no exception escape; the
entry is skipped and the load continues whenever the entry lacks the
leading-dot marker or its stat resolves; if the marker entry's stat
throws, the remaining entries are dropped and the accumulated catalog
is returned. -/
theorem claim_C5_amended_short_entry (fs : FSModel)
    (baseDir item itemPath : String) (rest : List String)
    (acc : List AWSIcon) (h : (sSplit '/' item).length < 3) :
    extractIconData item itemPath = (none, "")
    ∧ (startsWithDot item = false →
        processItems fs baseDir (item :: rest) acc
          = processItems fs baseDir rest acc)
    ∧ ((fs.stat (pathJoin baseDir item)).isSome = true →
        processItems fs baseDir (item :: rest) acc
          = processItems fs baseDir rest acc)
    ∧ (startsWithDot item = true → fs.stat (pathJoin baseDir item) = none →
        processItems fs baseDir (item :: rest) acc = acc) := by
  have hx : ∀ p : String, extractIconData item p = (none, "") := by
    intro p
    simp only [extractIconData]
    rw [if_pos h]
  refine ⟨hx itemPath, ?_, ?_, ?_⟩
  · intro hd
    simp only [processItems, hd, Bool.not_false, if_true]
  · intro hsome
    by_cases hd : startsWithDot item = true
    · rcases Option.isSome_iff_exists.mp hsome with ⟨b, hb⟩
      cases b with
      | false =>
        simp only [processItems, hd, Bool.not_true, Bool.false_eq_true,
          if_false, hb]
      | true =>
        simp only [processItems, hd, Bool.not_true, Bool.false_eq_true,
          if_false, hb, hx]
        split <;> rfl
    · have hd2 : startsWithDot item = false := by simpa using hd
      simp only [processItems, hd2, Bool.not_false, if_true]
  · intro hd hnone
    simp only [processItems, hd, Bool.not_true, Bool.false_eq_true,
      if_false, hnone]

theorem claim_C5_amended_short_entry_witness :
    extractIconData "./x" "/abs/x" = (none, "")
    ∧ processItems fsSingle (baseDirOf "d") ["./x"] [recA] = [recA] := by
  have h := claim_C5_amended_short_entry fsSingle (baseDirOf "d") "./x"
    "/abs/x" [] [recA] (by decide)
  exact ⟨h.1, by simpa [processItems] using h.2.2.1 (by decide)⟩

/-- Claim C6: when the record's stored path does not exist, the copy
action shows exactly one toast, the failure toast, never a success
toast, and places nothing on the clipboard; the action retries nothing
and consumes no catalog state at all. -/
theorem claim_C6_copy_missing_file (accessOk : String → Bool)
    (clipOk : Bool) (icon : AWSIcon) (format : String)
    (h : accessOk icon.path = false) :
    (copyIconToClipboard accessOk clipOk icon format).toasts
      = [{ style := ToastStyle.failure,
           title := "Failed to copy " ++ sToUpper format
             ++ " icon to clipboard",
           message := "The icon file might not exist or be accessible." }]
    ∧ (∀ t ∈ (copyIconToClipboard accessOk clipOk icon format).toasts,
        t.style = ToastStyle.failure)
    ∧ (copyIconToClipboard accessOk clipOk icon format).clip = [] := by
  refine ⟨?_, ?_, ?_⟩ <;> simp [copyIconToClipboard, h]

theorem claim_C6_copy_missing_file_witness :
    (copyIconToClipboard (fun _ => false) true recA "png").toasts.length = 1
    ∧ (copyIconToClipboard (fun _ => false) true recA "png").clip = [] := by
  have h := claim_C6_copy_missing_file (fun _ => false) true recA "png" rfl
  exact ⟨by simp [h.1], h.2.2⟩

/-- Claim C7: a dedup insert never changes the identity, source path or
relative order of already-catalogued records (only `formats` may grow);
a record whose identity is not yet present is appended at the end, and
`extractIconData` stamps the extracting file's absolute path into the
new record, so each record keeps the path of the first file encountered
for its triple and the catalog is ordered by first appearance. -/
theorem claim_C7_order_and_path :
    (∀ (icons : List AWSIcon) (icon : AWSIcon) (format : String),
        ((∃ i ∈ icons, keyMatches i icon = true) →
          (insertIcon icons icon format).map skeleton = icons.map skeleton)
        ∧ ((∀ i ∈ icons, keyMatches i icon = false) →
          insertIcon icons icon format
            = icons ++ [{ icon with formats := icon.formats ++ [format] }]))
    ∧ (∀ (item itemPath : String) (icon : AWSIcon) (format : String),
        extractIconData item itemPath = (some icon, format) →
        icon.path = itemPath)
    ∧ (∀ (fs : FSModel) (baseDir : String) (items : List String)
          (acc : List AWSIcon), ∃ ext,
        (processItems fs baseDir items acc).map skeleton
          = acc.map skeleton ++ ext) := by
  refine ⟨?_, extractIconData_path, processItems_skeleton⟩
  intro icons icon format
  exact ⟨insertIcon_found icons icon format,
    insertIcon_not_found icons icon format⟩

theorem claim_C7_order_and_path_witness :
    insertIcon [recA] recB "svg"
      = [recA, { recB with formats := ["svg"] }] := by
  have h := (claim_C7_order_and_path.1 [recA] recB "svg").2 (by decide)
  simpa using h

/-- Claim C8 counterexample: the grid title for a 21-character name is
`truncate name 20`, which is the first 20 characters plus "...": a
23-character string, not a string of at most 20 characters as claimed. -/
theorem claim_C8_counterexample_truncation :
    ("abcdefghijklmnopqrstu" : String).data.length = 21
    ∧ truncate "abcdefghijklmnopqrstu" 20 = "abcdefghijklmnopqrst..."
    ∧ (truncate "abcdefghijklmnopqrstu" 20).data.length = 23
    ∧ ¬ (truncate "abcdefghijklmnopqrstu" 20).data.length ≤ 20 :=
  ⟨by decide, by decide, by decide, by decide⟩

/-- Claim C8 amended: names of at most 20 characters are shown
unchanged; longer names are shown as their first 20 characters with the
three-character suffix "..." appended, 23 characters in total (so the
ellipsis is appended after truncation rather than the title being capped
at 20 characters). -/
theorem claim_C8_amended_truncation (str : String) :
    (str.data.length ≤ 20 → truncate str 20 = str)
    ∧ (20 < str.data.length →
        truncate str 20 = String.mk (str.data.take 20) ++ "..."
        ∧ (truncate str 20).data.length = 23) := by
  constructor
  · intro h
    unfold truncate
    rw [if_pos h]
  · intro h
    have hn : ¬ str.data.length ≤ 20 := by omega
    constructor
    · unfold truncate
      rw [if_neg hn]
    · unfold truncate
      rw [if_neg hn]
      have hdata : ∀ a b : String, (a ++ b).data = a.data ++ b.data := by
        intro a b
        cases a
        cases b
        rfl
      rw [hdata]
      show ((str.data.take 20) ++ ("..." : String).data).length = 23
      rw [List.length_append, List.length_take]
      have h3 : ("..." : String).data.length = 3 := by decide
      rw [h3]
      omega

theorem claim_C8_amended_truncation_witness :
    truncate "abc" 20 = "abc"
    ∧ (truncate "abcdefghijklmnopqrstu" 20).data.length = 23 :=
  ⟨(claim_C8_amended_truncation "abc").1 (by decide),
   ((claim_C8_amended_truncation "abcdefghijklmnopqrstu").2 (by decide)).2⟩

/-- Claim C9: the format argument of the copy action only selects the
notification wording: with any filesystem and clipboard outcome, the
"png" and "svg" calls put exactly the same file references on the
clipboard, namely the record's stored path when the copy goes through,
and show toasts of identical styles and count. -/
theorem claim_C9_format_only_text (accessOk : String → Bool)
    (clipOk : Bool) (icon : AWSIcon) :
    (∀ f₁ f₂ : String,
        (copyIconToClipboard accessOk clipOk icon f₁).clip
          = (copyIconToClipboard accessOk clipOk icon f₂).clip)
    ∧ (accessOk icon.path = true → clipOk = true →
        ∀ format : String,
          (copyIconToClipboard accessOk clipOk icon format).clip
            = [icon.path])
    ∧ (∀ f₁ f₂ : String,
        ((copyIconToClipboard accessOk clipOk icon f₁).toasts.map
            ToastMsg.style)
          = ((copyIconToClipboard accessOk clipOk icon f₂).toasts.map
            ToastMsg.style)) := by
  have hclip : ∀ f : String, (copyIconToClipboard accessOk clipOk icon f).clip
      = if accessOk icon.path && clipOk then [icon.path] else [] := by
    intro f
    cases hA : accessOk icon.path <;> cases hC : clipOk <;>
      simp [copyIconToClipboard, hA, hC]
  have hstyle : ∀ f : String,
      ((copyIconToClipboard accessOk clipOk icon f).toasts.map
        ToastMsg.style)
      = if accessOk icon.path && clipOk then [ToastStyle.success]
        else [ToastStyle.failure] := by
    intro f
    cases hA : accessOk icon.path <;> cases hC : clipOk <;>
      simp [copyIconToClipboard, hA, hC]
  refine ⟨?_, ?_, ?_⟩
  · intro f₁ f₂
    rw [hclip f₁, hclip f₂]
  · intro hA hC format
    rw [hclip format, hA, hC]
    rfl
  · intro f₁ f₂
    rw [hstyle f₁, hstyle f₂]

theorem claim_C9_format_only_text_witness :
    (copyIconToClipboard (fun _ => true) true recA "png").clip = ["/a"]
    ∧ (copyIconToClipboard (fun _ => true) true recA "png").clip
        = (copyIconToClipboard (fun _ => true) true recA "svg").clip :=
  ⟨(claim_C9_format_only_text (fun _ => true) true recA).2.1 rfl rfl "png",
   (claim_C9_format_only_text (fun _ => true) true recA).1 "png" "svg"⟩

/-- Claim C10: a throwing stat on a marker entry makes the per-entry
loop return the catalog accumulated so far: no exception escapes, the
remaining entries are dropped, and the result can be a non-empty partial
catalog — concretely, with a manifest of a valid PNG, a failing entry,
and a valid SVG of the same icon, the loader returns the single record
carrying only the PNG format. -/
theorem claim_C10_stat_abort :
    (∀ (fs : FSModel) (baseDir item : String) (rest : List String)
        (acc : List AWSIcon),
      startsWithDot item = true →
      fs.stat (pathJoin baseDir item) = none →
      processItems fs baseDir (item :: rest) acc = acc)
    ∧ loadIconsData fsAbort "d"
        = [{ name := "ok", category := "Res_B", type := IconType.resource,
             formats := ["png"], path := okPngPath }] := by
  constructor
  · intro fs baseDir item rest acc hd hnone
    simp only [processItems, hd, Bool.not_true, Bool.false_eq_true,
      if_false, hnone]
  · decide

theorem claim_C10_stat_abort_witness :
    processItems fsAbort (baseDirOf "d")
      ["./bad/x.png", "./Res_B/ok.svg"] [] = [] :=
  claim_C10_stat_abort.1 fsAbort (baseDirOf "d") "./bad/x.png"
    ["./Res_B/ok.svg"] [] (by decide) (by decide)
